import Mathlib

/-!
Verification development for the bundle-size analysis tool
(src/report-bundle-size.js and src/scripts/append-extended-bundle-comment.js).

The JavaScript is shallowly embedded: the filesystem is a function
`store : String → Option (Nat × Nat)` mapping a fully resolved path to the
(byte length, gzip length) pair of the file stored there (`none` when the
file does not exist); `path.join(nextMetaRoot, scriptPath)` is abstracted as
a function parameter `resolve : String → String`; the process-wide mutable
`memoryCache` object is threaded explicitly as an association list; JS
objects read back from JSON are association lists with unique keys, and
`obj[k]` is association-list lookup.
-/

namespace BundleSize

/-- A `{raw, gzip}` size record as produced by `getScriptSizes`. -/
structure SizeEntry where
  raw : Nat
  gzip : Nat
deriving DecidableEq, Repr

/-- The `memoryCache` object of report-bundle-size.js: resolved path ↦ `[rawSize, gzipSize]`. -/
def Cache := List (String × (Nat × Nat))

/-- JS object property access `m[k]` on an association list. -/
def lookupKey {α : Type} : List (String × α) → String → Option α
  | [], _ => none
  | e :: m, k => if e.1 = k then some e.2 else lookupKey m k

/-- `getScriptSize` (report-bundle-size.js lines 155-176): resolve the path,
serve from `memoryCache` when present, otherwise read the store
(a missing file measures as `(0, 0)`) and record the result in the cache. -/
def getScriptSize (resolve : String → String) (store : String → Option (Nat × Nat))
    (cache : List (String × (Nat × Nat))) (scriptPath : String) :
    (Nat × Nat) × List (String × (Nat × Nat)) :=
  let p := resolve scriptPath
  match lookupKey cache p with
  | some v => (v, cache)
  | none =>
    let v :=
      match store p with
      | none => (0, 0)
      | some sz => sz
    (v, (p, v) :: cache)

/-- The size `getScriptSize` computes for a path when it is not cached:
the store's pair, or `(0, 0)` for a missing file. -/
def measureOf (resolve : String → String) (store : String → Option (Nat × Nat))
    (scriptPath : String) : Nat × Nat :=
  (store (resolve scriptPath)).getD (0, 0)

/-- The elementwise sum of `measureOf` over a list of script paths. -/
def sumMeasure (resolve : String → String) (store : String → Option (Nat × Nat)) :
    List String → SizeEntry
  | [] => ⟨0, 0⟩
  | sp :: rest =>
    let m := measureOf resolve store sp
    let s := sumMeasure resolve store rest
    ⟨m.1 + s.raw, m.2 + s.gzip⟩

/-- Accumulator-passing rendering of the `reduce` in `getScriptSizes`
(report-bundle-size.js lines 139-152), threading the memory cache. -/
def getScriptSizesGo (resolve : String → String) (store : String → Option (Nat × Nat))
    (acc : SizeEntry) :
    List String → List (String × (Nat × Nat)) → SizeEntry × List (String × (Nat × Nat))
  | [], cache => (acc, cache)
  | sp :: rest, cache =>
    let r := getScriptSize resolve store cache sp
    getScriptSizesGo resolve store ⟨acc.raw + r.1.1, acc.gzip + r.1.2⟩ rest r.2

/-- `getScriptSizes` (report-bundle-size.js lines 139-152): fold script sizes
starting from `{raw: 0, gzip: 0}`. -/
def getScriptSizes (resolve : String → String) (store : String → Option (Nat × Nat))
    (scriptPaths : List String) (cache : List (String × (Nat × Nat))) :
    SizeEntry × List (String × (Nat × Nat)) :=
  getScriptSizesGo resolve store ⟨0, 0⟩ scriptPaths cache

/-- `allAppDirSizes` (report-bundle-size.js lines 62-73): per page, sum the
script sizes after filtering out the members of `globalAppDirBundle`.
The `reduce` that builds the result object is rendered as structural
recursion producing the entries in page order. -/
def allAppDirSizesGo (resolve : String → String) (store : String → Option (Nat × Nat))
    (globalAppDirBundle : List String) :
    List (String × List String) → List (String × (Nat × Nat)) →
      List (String × SizeEntry) × List (String × (Nat × Nat))
  | [], cache => ([], cache)
  | (pagePath, scriptPaths) :: rest, cache =>
    let r := getScriptSizes resolve store
      (scriptPaths.filter (fun sp => !(globalAppDirBundle.contains sp))) cache
    let rr := allAppDirSizesGo resolve store globalAppDirBundle rest r.2
    ((pagePath, r.1) :: rr.1, rr.2)

/-- Entry point for `allAppDirSizes`: starts from the given cache state. -/
def allAppDirSizes (resolve : String → String) (store : String → Option (Nat × Nat))
    (globalAppDirBundle : List String) (pages : List (String × List String))
    (cache : List (String × (Nat × Nat))) :
    List (String × SizeEntry) × List (String × (Nat × Nat)) :=
  allAppDirSizesGo resolve store globalAppDirBundle pages cache

/-- A cache state is coherent with the store when every cached pair is the
pair `getScriptSize` would compute fresh for that resolved path.  The empty
cache is coherent, and every cache reachable in a run is. -/
def cacheCoherent (store : String → Option (Nat × Nat))
    (cache : List (String × (Nat × Nat))) : Prop :=
  ∀ p v, lookupKey cache p = some v → v = (store p).getD (0, 0)

theorem cacheCoherent_nil (store : String → Option (Nat × Nat)) :
    cacheCoherent store [] := by
  intro p v h
  simp [lookupKey] at h

theorem getScriptSize_fst (resolve : String → String) (store : String → Option (Nat × Nat))
    (cache : List (String × (Nat × Nat))) (sp : String)
    (hc : cacheCoherent store cache) :
    (getScriptSize resolve store cache sp).1 = measureOf resolve store sp := by
  cases h : lookupKey cache (resolve sp) with
  | some v =>
    have := hc _ _ h
    simp [getScriptSize, measureOf, h, this]
  | none =>
    cases hs : store (resolve sp) <;> simp [getScriptSize, measureOf, h, hs]

theorem getScriptSize_coherent (resolve : String → String)
    (store : String → Option (Nat × Nat)) (cache : List (String × (Nat × Nat)))
    (sp : String) (hc : cacheCoherent store cache) :
    cacheCoherent store (getScriptSize resolve store cache sp).2 := by
  cases h : lookupKey cache (resolve sp) with
  | some v =>
    simp only [getScriptSize, h]
    exact hc
  | none =>
    intro q w hq
    simp only [getScriptSize, h] at hq
    by_cases hqe : resolve sp = q
    · rw [← hqe] at hq ⊢
      cases hs : store (resolve sp) <;>
        simp [hs, lookupKey] at hq <;> simp [hs, ← hq]
    · cases hs : store (resolve sp) <;>
        simp [hs, lookupKey, hqe] at hq <;> exact hc q w hq

theorem getScriptSizesGo_spec (resolve : String → String)
    (store : String → Option (Nat × Nat)) :
    ∀ (l : List String) (acc : SizeEntry) (cache : List (String × (Nat × Nat))),
      cacheCoherent store cache →
      (getScriptSizesGo resolve store acc l cache).1 =
        ⟨acc.raw + (sumMeasure resolve store l).raw,
         acc.gzip + (sumMeasure resolve store l).gzip⟩ ∧
      cacheCoherent store (getScriptSizesGo resolve store acc l cache).2
  | [], acc, cache, hc => by
    simp [getScriptSizesGo, sumMeasure]
    exact hc
  | sp :: rest, acc, cache, hc => by
    have h1 := getScriptSize_fst resolve store cache sp hc
    have h2 := getScriptSize_coherent resolve store cache sp hc
    have ih := getScriptSizesGo_spec resolve store rest
      ⟨acc.raw + (getScriptSize resolve store cache sp).1.1,
       acc.gzip + (getScriptSize resolve store cache sp).1.2⟩
      (getScriptSize resolve store cache sp).2 h2
    unfold getScriptSizesGo
    refine ⟨?_, ih.2⟩
    rw [ih.1]
    simp [sumMeasure, h1]
    constructor <;> omega

theorem getScriptSizes_fst (resolve : String → String)
    (store : String → Option (Nat × Nat)) (scriptPaths : List String)
    (cache : List (String × (Nat × Nat))) (hc : cacheCoherent store cache) :
    (getScriptSizes resolve store scriptPaths cache).1 =
      sumMeasure resolve store scriptPaths := by
  have := (getScriptSizesGo_spec resolve store scriptPaths ⟨0, 0⟩ cache hc).1
  simpa [getScriptSizes] using this

theorem getScriptSizes_coherent (resolve : String → String)
    (store : String → Option (Nat × Nat)) (scriptPaths : List String)
    (cache : List (String × (Nat × Nat))) (hc : cacheCoherent store cache) :
    cacheCoherent store (getScriptSizes resolve store scriptPaths cache).2 :=
  (getScriptSizesGo_spec resolve store scriptPaths ⟨0, 0⟩ cache hc).2

/-- Adding one element to a JS `Set` modelled as a duplicate-free list in
insertion order. -/
def jsSetAdd (acc : List String) (x : String) : List String :=
  if acc.contains x then acc else acc ++ [x]

/-- `new Set([...])` followed by iteration: first occurrences, insertion order. -/
def jsSetList (l : List String) : List String :=
  l.foldl jsSetAdd []

theorem mem_jsSetAdd (acc : List String) (x a : String) :
    a ∈ jsSetAdd acc x ↔ a ∈ acc ∨ a = x := by
  unfold jsSetAdd
  by_cases h : acc.contains x
  · simp only [h, if_pos]
    have hx : x ∈ acc := by simpa using h
    constructor
    · exact fun ha => Or.inl ha
    · rintro (ha | rfl)
      · exact ha
      · exact hx
  · simp only [h, if_neg]
    simp

theorem mem_foldl_jsSetAdd (l : List String) :
    ∀ (acc : List String) (a : String), a ∈ l.foldl jsSetAdd acc ↔ a ∈ acc ∨ a ∈ l := by
  induction l with
  | nil => simp
  | cons x rest ih =>
    intro acc a
    simp only [List.foldl_cons]
    rw [ih (jsSetAdd acc x) a, mem_jsSetAdd]
    simp only [List.mem_cons]
    tauto

theorem mem_jsSetList (l : List String) (a : String) :
    a ∈ jsSetList l ↔ a ∈ l := by
  rw [jsSetList, mem_foldl_jsSetAdd]
  simp

theorem lookupKey_some_mem {α : Type} (m : List (String × α)) (k : String) (v : α) :
    lookupKey m k = some v → k ∈ m.map Prod.fst := by
  induction m with
  | nil => intro h; simp [lookupKey] at h
  | cons e rest ih =>
    intro h
    by_cases he : e.1 = k
    · simp [he]
    · simp only [lookupKey, he, if_neg, if_false] at h
      simp [ih h]

theorem lookupKey_isSome_of_mem {α : Type} (m : List (String × α)) (k : String) :
    k ∈ m.map Prod.fst → ∃ v, lookupKey m k = some v := by
  induction m with
  | nil => simp
  | cons e rest ih =>
    intro h
    by_cases he : e.1 = k
    · exact ⟨e.2, by simp [lookupKey, he]⟩
    · simp only [List.map_cons, List.mem_cons] at h
      rcases h with h | h
      · exact absurd h.symm he
      · rcases ih h with ⟨v, hv⟩
        exact ⟨v, by simp [lookupKey, he, hv]⟩

/-- `{source, sourceFile}` route info stored in `__routes`. -/
structure RouteInfo where
  source : String
  sourceFile : Option String
deriving DecidableEq, Repr

/-- The fields of a parsed analysis JSON document that `logDiffs` reads.
A field is `none` when the corresponding key is absent from the document
(for example in a compat-schema or foreign document). -/
structure Doc where
  __global : Option SizeEntry
  __pages : Option (List (String × SizeEntry))
  __files : Option (List (String × SizeEntry))
  __routes : Option (List (String × RouteInfo))
  __rootMainFiles : Option (List String)
deriving DecidableEq, Repr

/-- `prev?.__global || {raw: 0, gzip: 0}` (and the same access on `curr`,
which is never null, passed here as `some curr`). -/
def docGlobal (d : Option Doc) : SizeEntry :=
  (d.bind (fun x => x.__global)).getD ⟨0, 0⟩

/-- `d?.__files || \x7b\x7d` as an association list. -/
def docFiles (d : Option Doc) : List (String × SizeEntry) :=
  (d.bind (fun x => x.__files)).getD []

/-- `d?.__pages || \x7b\x7d` as an association list. -/
def docPages (d : Option Doc) : List (String × SizeEntry) :=
  (d.bind (fun x => x.__pages)).getD []

/-- `d?.__routes || \x7b\x7d` as an association list. -/
def docRoutes (d : Option Doc) : List (String × RouteInfo) :=
  (d.bind (fun x => x.__routes)).getD []

/-- An entry pushed onto `changedFiles` in `logDiffs`. -/
structure ChangedFile where
  file : String
  prev : SizeEntry
  curr : SizeEntry
  deltaRaw : Int
  deltaGzip : Int
deriving DecidableEq, Repr

/-- An entry pushed onto `newFiles` in `logDiffs`. -/
structure NewFile where
  file : String
  curr : SizeEntry
deriving DecidableEq, Repr

/-- An entry pushed onto `removedFiles` in `logDiffs`. -/
structure RemovedFile where
  file : String
  prev : SizeEntry
deriving DecidableEq, Repr

/-- What the file-pass loop body of `logDiffs` (lines 197-211) pushes onto
`changedFiles` for one key, if anything. -/
def changedOf (prevFiles currFiles : List (String × SizeEntry)) (key : String) :
    Option ChangedFile :=
  match lookupKey prevFiles key, lookupKey currFiles key with
  | some p, some c =>
    let dr : Int := (c.raw : Int) - (p.raw : Int)
    let dg : Int := (c.gzip : Int) - (p.gzip : Int)
    if dr ≠ 0 ∨ dg ≠ 0 then some ⟨key, p, c, dr, dg⟩ else none
  | _, _ => none

/-- What the file-pass loop body pushes onto `newFiles` for one key. -/
def newOf (prevFiles currFiles : List (String × SizeEntry)) (key : String) :
    Option NewFile :=
  match lookupKey prevFiles key, lookupKey currFiles key with
  | none, some c => some ⟨key, c⟩
  | _, _ => none

/-- What the file-pass loop body pushes onto `removedFiles` for one key. -/
def removedOf (prevFiles currFiles : List (String × SizeEntry)) (key : String) :
    Option RemovedFile :=
  match lookupKey prevFiles key, lookupKey currFiles key with
  | some p, none => some ⟨key, p⟩
  | _, _ => none

/-- The file-pass `for (const key of fileKeys)` loop of `logDiffs`
(lines 197-211), rendered as structural recursion over the key list;
the three arrays are produced in key order. -/
def filePassGo (prevFiles currFiles : List (String × SizeEntry)) :
    List String → List ChangedFile × List NewFile × List RemovedFile
  | [] => ([], [], [])
  | key :: rest =>
    let r := filePassGo prevFiles currFiles rest
    match lookupKey prevFiles key, lookupKey currFiles key with
    | some p, none => (r.1, r.2.1, ⟨key, p⟩ :: r.2.2)
    | none, some c => (r.1, ⟨key, c⟩ :: r.2.1, r.2.2)
    | some p, some c =>
      let dr : Int := (c.raw : Int) - (p.raw : Int)
      let dg : Int := (c.gzip : Int) - (p.gzip : Int)
      if dr ≠ 0 ∨ dg ≠ 0 then (⟨key, p, c, dr, dg⟩ :: r.1, r.2.1, r.2.2) else r
    | none, none => r

/-- The complete file pass: key set is the union of both key lists in JS
`Set` insertion order (previous keys first). -/
def filePass (prevFiles currFiles : List (String × SizeEntry)) :
    List ChangedFile × List NewFile × List RemovedFile :=
  filePassGo prevFiles currFiles
    (jsSetList (prevFiles.map Prod.fst ++ currFiles.map Prod.fst))

/-- An entry pushed onto `pageChanges` in `logDiffs` (lines 230-238). -/
structure PageChange where
  page : String
  prev : SizeEntry
  curr : SizeEntry
  deltaRaw : Int
  deltaGzip : Int
deriving DecidableEq, Repr

/-- What the page-pass loop body pushes onto `pageChanges` for one key:
absent sides default to `{raw: 0, gzip: 0}`, and the entry is kept only
when one of the deltas is non-zero. -/
def pageChangeOf (prevPages currPages : List (String × SizeEntry)) (key : String) :
    Option PageChange :=
  let p := (lookupKey prevPages key).getD ⟨0, 0⟩
  let c := (lookupKey currPages key).getD ⟨0, 0⟩
  let dr : Int := (c.raw : Int) - (p.raw : Int)
  let dg : Int := (c.gzip : Int) - (p.gzip : Int)
  if dr ≠ 0 ∨ dg ≠ 0 then some ⟨key, p, c, dr, dg⟩ else none

/-- The page-pass loop of `logDiffs` (lines 230-238) over a key list. -/
def pagePassGo (prevPages currPages : List (String × SizeEntry)) :
    List String → List PageChange
  | [] => []
  | key :: rest =>
    match pageChangeOf prevPages currPages key with
    | some e => e :: pagePassGo prevPages currPages rest
    | none => pagePassGo prevPages currPages rest

/-- The complete page pass of `logDiffs` (lines 226-238). -/
def pagePass (prevPages currPages : List (String × SizeEntry)) : List PageChange :=
  pagePassGo prevPages currPages
    (jsSetList (prevPages.map Prod.fst ++ currPages.map Prod.fst))

/-- The structured content of everything `logDiffs` prints. -/
structure DiffResult where
  currGlobal : SizeEntry
  deltaGlobalRaw : Int
  deltaGlobalGzip : Int
  changedFiles : List ChangedFile
  newFiles : List NewFile
  removedFiles : List RemovedFile
  pageChanges : List PageChange
  newRoutes : List String
  removedRoutes : List String
deriving DecidableEq, Repr

/-- `logDiffs` (report-bundle-size.js lines 179-273) as a pure function from
the previous document (possibly absent) and the current document to the
structured data it logs.  The console lines for each list are emitted in
list order. -/
def logDiffs (prev : Option Doc) (curr : Doc) : DiffResult :=
  let prevGlobal := docGlobal prev
  let currGlobal := docGlobal (some curr)
  let fp := filePass (docFiles prev) (docFiles (some curr))
  let pc := pagePass (docPages prev) (docPages (some curr))
  let prevRouteKeys := jsSetList ((docRoutes prev).map Prod.fst)
  let currRouteKeys := jsSetList ((docRoutes (some curr)).map Prod.fst)
  { currGlobal := currGlobal
    deltaGlobalRaw := (currGlobal.raw : Int) - (prevGlobal.raw : Int)
    deltaGlobalGzip := (currGlobal.gzip : Int) - (prevGlobal.gzip : Int)
    changedFiles := fp.1
    newFiles := fp.2.1
    removedFiles := fp.2.2
    pageChanges := pc
    newRoutes := currRouteKeys.filter (fun r => !(prevRouteKeys.contains r))
    removedRoutes := prevRouteKeys.filter (fun r => !(currRouteKeys.contains r)) }

theorem filePassGo_eq (prevFiles currFiles : List (String × SizeEntry)) :
    ∀ keys : List String,
      filePassGo prevFiles currFiles keys =
        (keys.filterMap (changedOf prevFiles currFiles),
         keys.filterMap (newOf prevFiles currFiles),
         keys.filterMap (removedOf prevFiles currFiles))
  | [] => rfl
  | key :: rest => by
    have ih := filePassGo_eq prevFiles currFiles rest
    simp only [filePassGo, ih, List.filterMap_cons]
    cases hp : lookupKey prevFiles key <;> cases hc : lookupKey currFiles key <;>
      simp only [changedOf, newOf, removedOf, hp, hc]
    split <;> simp

theorem changedOf_inv (prevFiles currFiles : List (String × SizeEntry)) (key : String)
    (e : ChangedFile) (h : changedOf prevFiles currFiles key = some e) :
    e.file = key ∧ lookupKey prevFiles key = some e.prev ∧
      lookupKey currFiles key = some e.curr ∧
      e.deltaRaw = (e.curr.raw : Int) - (e.prev.raw : Int) ∧
      e.deltaGzip = (e.curr.gzip : Int) - (e.prev.gzip : Int) ∧
      (e.deltaRaw ≠ 0 ∨ e.deltaGzip ≠ 0) := by
  cases hp : lookupKey prevFiles key with
  | none =>
    exact absurd h (by cases hc : lookupKey currFiles key <;> simp [changedOf, hp, hc])
  | some p =>
    cases hc : lookupKey currFiles key with
    | none => exact absurd h (by simp [changedOf, hp, hc])
    | some c =>
      simp only [changedOf, hp, hc] at h
      split at h
      · rename_i hne
        cases h
        simpa using hne
      · exact absurd h (by simp)

theorem newOf_inv (prevFiles currFiles : List (String × SizeEntry)) (key : String)
    (e : NewFile) (h : newOf prevFiles currFiles key = some e) :
    e.file = key ∧ lookupKey prevFiles key = none ∧
      lookupKey currFiles key = some e.curr := by
  cases hp : lookupKey prevFiles key with
  | none =>
    cases hc : lookupKey currFiles key with
    | none => exact absurd h (by simp [newOf, hp, hc])
    | some c =>
      simp only [newOf, hp, hc] at h
      cases h
      simp
  | some p =>
    exact absurd h (by cases hc : lookupKey currFiles key <;> simp [newOf, hp, hc])

theorem removedOf_inv (prevFiles currFiles : List (String × SizeEntry)) (key : String)
    (e : RemovedFile) (h : removedOf prevFiles currFiles key = some e) :
    e.file = key ∧ lookupKey prevFiles key = some e.prev ∧
      lookupKey currFiles key = none := by
  cases hp : lookupKey prevFiles key with
  | none =>
    exact absurd h (by cases hc : lookupKey currFiles key <;> simp [removedOf, hp, hc])
  | some p =>
    cases hc : lookupKey currFiles key with
    | none =>
      simp only [removedOf, hp, hc] at h
      cases h
      simp
    | some c => exact absurd h (by simp [removedOf, hp, hc])

theorem pageChangeOf_inv (prevPages currPages : List (String × SizeEntry)) (key : String)
    (e : PageChange) (h : pageChangeOf prevPages currPages key = some e) :
    e.page = key ∧ e.prev = (lookupKey prevPages key).getD ⟨0, 0⟩ ∧
      e.curr = (lookupKey currPages key).getD ⟨0, 0⟩ ∧
      e.deltaRaw = (e.curr.raw : Int) - (e.prev.raw : Int) ∧
      e.deltaGzip = (e.curr.gzip : Int) - (e.prev.gzip : Int) ∧
      (e.deltaRaw ≠ 0 ∨ e.deltaGzip ≠ 0) := by
  simp only [pageChangeOf] at h
  split at h
  · rename_i hne
    cases h
    simpa using hne
  · exact absurd h (by simp)

theorem pagePassGo_eq (prevPages currPages : List (String × SizeEntry)) :
    ∀ keys : List String,
      pagePassGo prevPages currPages keys =
        keys.filterMap (pageChangeOf prevPages currPages)
  | [] => rfl
  | key :: rest => by
    have ih := pagePassGo_eq prevPages currPages rest
    simp only [pagePassGo, ih, List.filterMap_cons]
    cases h : pageChangeOf prevPages currPages key <;> simp

/-- The compat output written to `__bundle_analysis.json`
(report-bundle-size.js line 127): the object
`\x7b __global: globalAppDirBundleSizes, ...allAppDirSizes \x7d`. -/
structure CompatDoc where
  __global : SizeEntry
  pageEntries : List (String × SizeEntry)
deriving DecidableEq, Repr

/-- `compatJson` (line 127) built from the global sizes and the per-page
entries of `allAppDirSizes`. -/
def compatJson (globalAppDirBundleSizes : SizeEntry)
    (allPageSizes : List (String × SizeEntry)) : CompatDoc :=
  ⟨globalAppDirBundleSizes, allPageSizes⟩

/-- The top-level keys of the compat JSON object, in construction order. -/
def CompatDoc.keys (c : CompatDoc) : List String :=
  "__global" :: c.pageEntries.map Prod.fst

/-- Reading a compat document back as a parsed analysis document: only
`__global` is present; `__files`, `__pages`, `__routes` and
`__rootMainFiles` are absent (provided no page key collides with one of
those reserved names, which would shadow it in the flat JS object). -/
def CompatDoc.toDoc (c : CompatDoc) : Doc :=
  ⟨some c.__global, none, none, none, none⟩

/-- A previous document in which every field `logDiffs` reads is absent. -/
def emptyDoc : Doc := ⟨none, none, none, none, none⟩

/-- The fixed extension probe order of `resolveSourceFile` (line 282). -/
def resolveExts : List String := ["tsx", "ts", "jsx", "js", "mdx"]

/-- `sourceLike.replace(new RegExp exp, given the anchor it strips at most one
leading slash)` on line 283. -/
def stripLeadingSlash (s : String) : String :=
  if s.startsWith "/" then s.drop 1 else s

/-- `path.join('app', rel)` for the already slash-stripped identifier. -/
def appRel (s : String) : String :=
  if stripLeadingSlash s = "" then "app" else "app/" ++ stripLeadingSlash s

/-- One probe loop of `resolveSourceFile`: return the first candidate
`mk ext` whose cwd-joined absolute path exists.  `path.relative(cwd,
path.join(cwd, candidate))` is the candidate itself, so the relative
candidate is returned directly. -/
def probeExts (exist : String → Bool) (cwd : String) (mk : String → String) :
    List String → Option String
  | [] => none
  | ext :: rest =>
    if exist (cwd ++ "/" ++ mk ext) then some (mk ext)
    else probeExts exist cwd mk rest

/-- `resolveSourceFile` (report-bundle-size.js lines 280-294): probe
`<rel>.<ext>` for each extension in order, then `<rel>/route.<ext>` in the
same order, returning the first existing candidate, else null.  File
existence is the abstract predicate `exist` over absolute paths. -/
def resolveSourceFile (exist : String → Bool) (cwd : String) (sourceLike : String) :
    Option String :=
  let rel := appRel sourceLike
  match probeExts exist cwd (fun ext => rel ++ "." ++ ext) resolveExts with
  | some hit => some hit
  | none => probeExts exist cwd (fun ext => rel ++ "/route." ++ ext) resolveExts

/-- Modelled from the spec's words for comparison with `resolveSourceFile`:
the first existing candidate in the fixed order `tsx, ts, jsx, js, mdx` at
the page-level path, and only if none of those five exist, the first
existing `route.<ext>` candidate in the same order; otherwise the absence
marker. -/
def resolveSpec (exist : String → Bool) (cwd : String) (sourceLike : String) :
    Option String :=
  let rel := appRel sourceLike
  match resolveExts.find? (fun ext => exist (cwd ++ "/" ++ (rel ++ "." ++ ext))) with
  | some ext => some (rel ++ "." ++ ext)
  | none =>
    (resolveExts.find? (fun ext => exist (cwd ++ "/" ++ (rel ++ "/route." ++ ext)))).map
      (fun ext => rel ++ "/route." ++ ext)

/-- A row of the changed-files table in append-extended-bundle-comment.js
(line 55). -/
structure ChangedRow where
  file : String
  raw : Nat
  gzip : Nat
  dRaw : Int
  dGzip : Int
deriving DecidableEq, Repr

/-- A row of the added or removed tables (lines 48 and 50). -/
structure SizeRow where
  file : String
  raw : Nat
  gzip : Nat
deriving DecidableEq, Repr

/-- The three per-file tables the comment script computes. -/
structure CommentTables where
  changed : List ChangedRow
  added : List SizeRow
  removed : List SizeRow
deriving DecidableEq, Repr

/-- What the comment script's loop body (lines 44-58) pushes onto `changed`
for one key. -/
def commentChangedOf (currFiles baseFiles : List (String × SizeEntry)) (k : String) :
    Option ChangedRow :=
  match lookupKey currFiles k, lookupKey baseFiles k with
  | some c, some b =>
    let dRaw : Int := (c.raw : Int) - (b.raw : Int)
    let dGzip : Int := (c.gzip : Int) - (b.gzip : Int)
    if dRaw ≠ 0 ∨ dGzip ≠ 0 then some ⟨k, c.raw, c.gzip, dRaw, dGzip⟩ else none
  | _, _ => none

/-- What the loop body pushes onto `added` for one key. -/
def commentAddedOf (currFiles baseFiles : List (String × SizeEntry)) (k : String) :
    Option SizeRow :=
  match lookupKey currFiles k, lookupKey baseFiles k with
  | some c, none => some ⟨k, c.raw, c.gzip⟩
  | _, _ => none

/-- What the loop body pushes onto `removed` for one key. -/
def commentRemovedOf (currFiles baseFiles : List (String × SizeEntry)) (k : String) :
    Option SizeRow :=
  match lookupKey currFiles k, lookupKey baseFiles k with
  | none, some b => some ⟨k, b.raw, b.gzip⟩
  | _, _ => none

/-- The `for (const k of keys)` loop of append-extended-bundle-comment.js
(lines 44-58), rendered as structural recursion over the key list. -/
def commentPassGo (currFiles baseFiles : List (String × SizeEntry)) :
    List String → CommentTables
  | [] => ⟨[], [], []⟩
  | k :: rest =>
    let r := commentPassGo currFiles baseFiles rest
    match lookupKey currFiles k, lookupKey baseFiles k with
    | some c, none => ⟨r.changed, ⟨k, c.raw, c.gzip⟩ :: r.added, r.removed⟩
    | none, some b => ⟨r.changed, r.added, ⟨k, b.raw, b.gzip⟩ :: r.removed⟩
    | some c, some b =>
      let dRaw : Int := (c.raw : Int) - (b.raw : Int)
      let dGzip : Int := (c.gzip : Int) - (b.gzip : Int)
      if dRaw ≠ 0 ∨ dGzip ≠ 0 then
        ⟨⟨k, c.raw, c.gzip, dRaw, dGzip⟩ :: r.changed, r.added, r.removed⟩
      else r
    | none, none => r

/-- The complete per-file comparison of the comment script: the key set is
the union of both key lists, current keys first (line 38). -/
def commentPass (currFiles baseFiles : List (String × SizeEntry)) : CommentTables :=
  commentPassGo currFiles baseFiles
    (jsSetList (currFiles.map Prod.fst ++ baseFiles.map Prod.fst))

/-- The comparator of `changed.sort` (line 78):
`Math.abs(b.dGzip) - Math.abs(a.dGzip) || Math.abs(b.dRaw) - Math.abs(a.dRaw)`
is non-positive (so `a` may precede `b`) exactly when this relation holds. -/
@[reducible] def changedLe (a b : ChangedRow) : Prop :=
  b.dGzip.natAbs < a.dGzip.natAbs ∨
    (b.dGzip.natAbs = a.dGzip.natAbs ∧ b.dRaw.natAbs ≤ a.dRaw.natAbs)

instance : DecidableRel changedLe :=
  fun _ _ => inferInstanceAs (Decidable (_ ∨ _))

instance : IsTotal ChangedRow changedLe :=
  ⟨fun a b => by unfold changedLe; omega⟩

instance : IsTrans ChangedRow changedLe :=
  ⟨fun a b c h1 h2 => by unfold changedLe at h1 h2 ⊢; omega⟩

/-- `changed.sort(...)` (line 78): JS `Array.prototype.sort` is a stable
sort by the comparator; modelled with the stable `List.insertionSort`. -/
def sortChanged (l : List ChangedRow) : List ChangedRow :=
  List.insertionSort changedLe l

/-- The whole comment script (append-extended-bundle-comment.js) as a
function of the four optional parsed documents: current primary, current
extended, base primary, base extended.  `readJsonSafe` returning null for a
missing or unparsable file is the `none` case; `none` as a result means the
script exits with status 0 before writing anything. -/
def scriptRun (currPrimary currExtended basePrimary baseExtended : Option Doc) :
    Option CommentTables :=
  match currPrimary.orElse (fun _ => currExtended) with
  | none => none
  | some curr =>
    let currFiles := curr.__files.getD []
    let base := basePrimary.orElse (fun _ => baseExtended)
    let baseFiles := (base.bind (fun b => b.__files)).getD []
    some (commentPass currFiles baseFiles)

/-- The ordering the specification asserts for the rendered changed-files
listing: descending gzip-delta magnitude, ties by descending raw-delta
magnitude, remaining ties by file key (the string order, i.e. the
lexicographic order on the character data). -/
def specOrderedC6 : List ChangedRow → Bool
  | [] => true
  | [_] => true
  | a :: b :: rest =>
    (decide (b.dGzip.natAbs < a.dGzip.natAbs ∨
      (a.dGzip.natAbs = b.dGzip.natAbs ∧
        (b.dRaw.natAbs < a.dRaw.natAbs ∨
          (a.dRaw.natAbs = b.dRaw.natAbs ∧ a.file.data ≤ b.file.data))))) &&
    specOrderedC6 (b :: rest)

theorem allAppDirSizesGo_spec (resolve : String → String)
    (store : String → Option (Nat × Nat)) (globalAppDirBundle : List String) :
    ∀ (pages : List (String × List String)) (cache : List (String × (Nat × Nat))),
      cacheCoherent store cache →
      (allAppDirSizesGo resolve store globalAppDirBundle pages cache).1 =
        pages.map (fun e => (e.1, sumMeasure resolve store
          (e.2.filter (fun sp => !(globalAppDirBundle.contains sp)))))
  | [], _, _ => rfl
  | (pagePath, scriptPaths) :: rest, cache, hc => by
    have h1 := getScriptSizes_fst resolve store
      (scriptPaths.filter (fun sp => !(globalAppDirBundle.contains sp))) cache hc
    have h2 := getScriptSizes_coherent resolve store
      (scriptPaths.filter (fun sp => !(globalAppDirBundle.contains sp))) cache hc
    have ih := allAppDirSizesGo_spec resolve store globalAppDirBundle rest _ h2
    simp only [allAppDirSizesGo, List.map_cons]
    rw [h1, ih]

theorem logDiffs_changedFiles (prev : Option Doc) (curr : Doc) :
    (logDiffs prev curr).changedFiles =
      (jsSetList ((docFiles prev).map Prod.fst ++ (docFiles (some curr)).map Prod.fst)).filterMap
        (changedOf (docFiles prev) (docFiles (some curr))) := by
  simp [logDiffs, filePass, filePassGo_eq]

theorem logDiffs_newFiles (prev : Option Doc) (curr : Doc) :
    (logDiffs prev curr).newFiles =
      (jsSetList ((docFiles prev).map Prod.fst ++ (docFiles (some curr)).map Prod.fst)).filterMap
        (newOf (docFiles prev) (docFiles (some curr))) := by
  simp [logDiffs, filePass, filePassGo_eq]

theorem logDiffs_removedFiles (prev : Option Doc) (curr : Doc) :
    (logDiffs prev curr).removedFiles =
      (jsSetList ((docFiles prev).map Prod.fst ++ (docFiles (some curr)).map Prod.fst)).filterMap
        (removedOf (docFiles prev) (docFiles (some curr))) := by
  simp [logDiffs, filePass, filePassGo_eq]

theorem logDiffs_pageChanges (prev : Option Doc) (curr : Doc) :
    (logDiffs prev curr).pageChanges =
      (jsSetList ((docPages prev).map Prod.fst ++ (docPages (some curr)).map Prod.fst)).filterMap
        (pageChangeOf (docPages prev) (docPages (some curr))) := by
  simp [logDiffs, pagePass, pagePassGo_eq]

theorem mem_keys_left {α : Type} (m : List (String × α)) (other : List String)
    (k : String) (v : α) (h : lookupKey m k = some v) :
    k ∈ jsSetList (m.map Prod.fst ++ other) := by
  rw [mem_jsSetList]
  exact List.mem_append_left _ (lookupKey_some_mem m k v h)

theorem mem_keys_right {α : Type} (m : List (String × α)) (other : List String)
    (k : String) (v : α) (h : lookupKey m k = some v) :
    k ∈ jsSetList (other ++ m.map Prod.fst) := by
  rw [mem_jsSetList]
  exact List.mem_append_right _ (lookupKey_some_mem m k v h)

theorem changed_mem (pf cf : List (String × SizeEntry)) (keys : List String)
    (k : String) (p c : SizeEntry) (hk : k ∈ keys)
    (hp : lookupKey pf k = some p) (hc : lookupKey cf k = some c)
    (hne : (c.raw : Int) - (p.raw : Int) ≠ 0 ∨ (c.gzip : Int) - (p.gzip : Int) ≠ 0) :
    (⟨k, p, c, (c.raw : Int) - (p.raw : Int), (c.gzip : Int) - (p.gzip : Int)⟩ : ChangedFile)
      ∈ keys.filterMap (changedOf pf cf) := by
  refine List.mem_filterMap.2 ⟨k, hk, ?_⟩
  simp only [changedOf, hp, hc]
  rw [if_pos hne]

theorem new_mem (pf cf : List (String × SizeEntry)) (keys : List String)
    (k : String) (c : SizeEntry) (hk : k ∈ keys)
    (hp : lookupKey pf k = none) (hc : lookupKey cf k = some c) :
    (⟨k, c⟩ : NewFile) ∈ keys.filterMap (newOf pf cf) := by
  refine List.mem_filterMap.2 ⟨k, hk, ?_⟩
  simp [newOf, hp, hc]

theorem removed_mem (pf cf : List (String × SizeEntry)) (keys : List String)
    (k : String) (p : SizeEntry) (hk : k ∈ keys)
    (hp : lookupKey pf k = some p) (hc : lookupKey cf k = none) :
    (⟨k, p⟩ : RemovedFile) ∈ keys.filterMap (removedOf pf cf) := by
  refine List.mem_filterMap.2 ⟨k, hk, ?_⟩
  simp [removedOf, hp, hc]

theorem changed_ne_of_missing (pf cf : List (String × SizeEntry)) (keys : List String)
    (k : String) (h : lookupKey pf k = none ∨ lookupKey cf k = none) :
    ∀ e ∈ keys.filterMap (changedOf pf cf), e.file ≠ k := by
  intro e he hek
  rcases List.mem_filterMap.1 he with ⟨k', _, hck⟩
  obtain ⟨hf, hp, hc, _, _, _⟩ := changedOf_inv pf cf k' e hck
  have hkk : k' = k := by rw [← hf, hek]
  subst hkk
  rcases h with h | h
  · rw [h] at hp; exact Option.noConfusion hp
  · rw [h] at hc; exact Option.noConfusion hc

theorem changed_ne_of_zero (pf cf : List (String × SizeEntry)) (keys : List String)
    (k : String) (p c : SizeEntry)
    (hp : lookupKey pf k = some p) (hc : lookupKey cf k = some c)
    (h1 : (c.raw : Int) - (p.raw : Int) = 0) (h2 : (c.gzip : Int) - (p.gzip : Int) = 0) :
    ∀ e ∈ keys.filterMap (changedOf pf cf), e.file ≠ k := by
  intro e he hek
  rcases List.mem_filterMap.1 he with ⟨k', _, hck⟩
  obtain ⟨hf, hp', hc', hdr, hdg, hne⟩ := changedOf_inv pf cf k' e hck
  have hkk : k' = k := by rw [← hf, hek]
  subst hkk
  rw [hp] at hp'
  rw [hc] at hc'
  have hpe : p = e.prev := Option.some.inj hp'
  have hce : c = e.curr := Option.some.inj hc'
  rcases hne with hne | hne
  · exact hne (by rw [hdr, ← hpe, ← hce]; exact h1)
  · exact hne (by rw [hdg, ← hpe, ← hce]; exact h2)

theorem new_ne (pf cf : List (String × SizeEntry)) (keys : List String)
    (k : String) (h : (∃ v, lookupKey pf k = some v) ∨ lookupKey cf k = none) :
    ∀ e ∈ keys.filterMap (newOf pf cf), e.file ≠ k := by
  intro e he hek
  rcases List.mem_filterMap.1 he with ⟨k', _, hck⟩
  obtain ⟨hf, hp, hc⟩ := newOf_inv pf cf k' e hck
  have hkk : k' = k := by rw [← hf, hek]
  subst hkk
  rcases h with ⟨v, h⟩ | h
  · rw [h] at hp; exact Option.noConfusion hp
  · rw [h] at hc; exact Option.noConfusion hc

theorem removed_ne (pf cf : List (String × SizeEntry)) (keys : List String)
    (k : String) (h : lookupKey pf k = none ∨ (∃ v, lookupKey cf k = some v)) :
    ∀ e ∈ keys.filterMap (removedOf pf cf), e.file ≠ k := by
  intro e he hek
  rcases List.mem_filterMap.1 he with ⟨k', _, hck⟩
  obtain ⟨hf, hp, hc⟩ := removedOf_inv pf cf k' e hck
  have hkk : k' = k := by rw [← hf, hek]
  subst hkk
  rcases h with h | ⟨v, h⟩
  · rw [h] at hp; exact Option.noConfusion hp
  · rw [h] at hc; exact Option.noConfusion hc

theorem pageChange_ne_of_zero (pp cp : List (String × SizeEntry)) (keys : List String)
    (k : String)
    (h1 : (((lookupKey cp k).getD ⟨0, 0⟩).raw : Int) -
      (((lookupKey pp k).getD ⟨0, 0⟩).raw : Int) = 0)
    (h2 : (((lookupKey cp k).getD ⟨0, 0⟩).gzip : Int) -
      (((lookupKey pp k).getD ⟨0, 0⟩).gzip : Int) = 0) :
    ∀ e ∈ keys.filterMap (pageChangeOf pp cp), e.page ≠ k := by
  intro e he hek
  rcases List.mem_filterMap.1 he with ⟨k', _, hck⟩
  obtain ⟨hf, hp, hc, hdr, hdg, hne⟩ := pageChangeOf_inv pp cp k' e hck
  have hkk : k' = k := by rw [← hf, hek]
  subst hkk
  rcases hne with hne | hne
  · exact hne (by rw [hdr, hp, hc]; exact h1)
  · exact hne (by rw [hdg, hp, hc]; exact h2)

theorem pageChange_mem (pp cp : List (String × SizeEntry)) (keys : List String)
    (k : String) (hk : k ∈ keys)
    (hne : (((lookupKey cp k).getD ⟨0, 0⟩).raw : Int) -
        (((lookupKey pp k).getD ⟨0, 0⟩).raw : Int) ≠ 0 ∨
      (((lookupKey cp k).getD ⟨0, 0⟩).gzip : Int) -
        (((lookupKey pp k).getD ⟨0, 0⟩).gzip : Int) ≠ 0) :
    (⟨k, (lookupKey pp k).getD ⟨0, 0⟩, (lookupKey cp k).getD ⟨0, 0⟩,
      (((lookupKey cp k).getD ⟨0, 0⟩).raw : Int) - (((lookupKey pp k).getD ⟨0, 0⟩).raw : Int),
      (((lookupKey cp k).getD ⟨0, 0⟩).gzip : Int) -
        (((lookupKey pp k).getD ⟨0, 0⟩).gzip : Int)⟩ : PageChange)
      ∈ keys.filterMap (pageChangeOf pp cp) := by
  refine List.mem_filterMap.2 ⟨k, hk, ?_⟩
  simp only [pageChangeOf]
  rw [if_pos hne]

theorem changedFiles_emptyPrev (prev : Option Doc) (curr : Doc)
    (h : docFiles prev = []) : (logDiffs prev curr).changedFiles = [] := by
  rw [logDiffs_changedFiles, h]
  refine List.filterMap_eq_nil_iff.2 (fun k _ => ?_)
  simp [changedOf, lookupKey]

theorem removedFiles_emptyPrev (prev : Option Doc) (curr : Doc)
    (h : docFiles prev = []) : (logDiffs prev curr).removedFiles = [] := by
  rw [logDiffs_removedFiles, h]
  refine List.filterMap_eq_nil_iff.2 (fun k _ => ?_)
  simp [removedOf, lookupKey]

theorem newOf_map_file (cf : List (String × SizeEntry)) :
    ∀ keys : List String, (∀ k ∈ keys, k ∈ cf.map Prod.fst) →
      (keys.filterMap (newOf [] cf)).map NewFile.file = keys
  | [], _ => rfl
  | k :: rest, h => by
    obtain ⟨v, hv⟩ := lookupKey_isSome_of_mem cf k (h k (List.mem_cons_self k rest))
    have ih := newOf_map_file cf rest (fun k' hk' => h k' (List.mem_cons_of_mem k hk'))
    simp [List.filterMap_cons, newOf, lookupKey, hv, ih]

theorem newFiles_emptyPrev (prev : Option Doc) (curr : Doc)
    (h : docFiles prev = []) :
    (logDiffs prev curr).newFiles.map NewFile.file =
      jsSetList ((docFiles (some curr)).map Prod.fst) := by
  rw [logDiffs_newFiles, h]
  simp only [List.map_nil, List.nil_append]
  exact newOf_map_file (docFiles (some curr)) _
    (fun k hk => (mem_jsSetList _ k).1 hk)

theorem pageChanges_emptyPrev (prev : Option Doc) (curr : Doc)
    (h : docPages prev = []) :
    ∀ e ∈ (logDiffs prev curr).pageChanges, e.prev = ⟨0, 0⟩ := by
  rw [logDiffs_pageChanges, h]
  intro e he
  rcases List.mem_filterMap.1 he with ⟨k, _, hck⟩
  obtain ⟨_, hp, _, _, _, _⟩ := pageChangeOf_inv [] _ k e hck
  simpa [lookupKey] using hp

theorem routes_emptyPrev (prev : Option Doc) (curr : Doc)
    (h : docRoutes prev = []) :
    (logDiffs prev curr).newRoutes = jsSetList ((docRoutes (some curr)).map Prod.fst) ∧
    (logDiffs prev curr).removedRoutes = [] := by
  simp [logDiffs, h, jsSetList]

theorem probeExts_eq_find (exist : String → Bool) (cwd : String) (mk : String → String) :
    ∀ exts : List String,
      probeExts exist cwd mk exts =
        (exts.find? (fun ext => exist (cwd ++ "/" ++ mk ext))).map mk
  | [] => rfl
  | ext :: rest => by
    have ih := probeExts_eq_find exist cwd mk rest
    cases h : exist (cwd ++ "/" ++ mk ext) <;>
      simp [probeExts, List.find?_cons, h, ih]

theorem commentPassGo_emptyCurr (bf : List (String × SizeEntry)) :
    ∀ keys : List String,
      (commentPassGo [] bf keys).changed = [] ∧ (commentPassGo [] bf keys).added = []
  | [] => ⟨rfl, rfl⟩
  | k :: rest => by
    have ih := commentPassGo_emptyCurr bf rest
    cases hb : lookupKey bf k <;>
      simp [commentPassGo, lookupKey, hb, ih.1, ih.2]

theorem commentRemoved_map_file (bf : List (String × SizeEntry)) :
    ∀ keys : List String, (∀ k ∈ keys, k ∈ bf.map Prod.fst) →
      (commentPassGo [] bf keys).removed.map SizeRow.file = keys
  | [], _ => rfl
  | k :: rest, h => by
    obtain ⟨v, hv⟩ := lookupKey_isSome_of_mem bf k (h k (List.mem_cons_self k rest))
    have ih := commentRemoved_map_file bf rest (fun k' hk' => h k' (List.mem_cons_of_mem k hk'))
    simp [commentPassGo, lookupKey, hv, ih]

/-- C1: for every page bundle, a path in the global file list contributes
nothing to the page's summed total: each page's entry in `allAppDirSizes`
equals the elementwise size sum over only the non-global survivors of its
script-path list, and inserting an occurrence of a globally listed path
anywhere in a page's list (so also multiple times) leaves that sum
unchanged. -/
theorem claimC1 (resolve : String → String) (store : String → Option (Nat × Nat))
    (globalAppDirBundle : List String) (pages : List (String × List String))
    (cache : List (String × (Nat × Nat))) (hc : cacheCoherent store cache) :
    (allAppDirSizes resolve store globalAppDirBundle pages cache).1 =
      pages.map (fun e => (e.1, sumMeasure resolve store
        (e.2.filter (fun sp => !(globalAppDirBundle.contains sp))))) ∧
    ∀ (x : String) (l₁ l₂ : List String), globalAppDirBundle.contains x = true →
      sumMeasure resolve store
          ((l₁ ++ x :: l₂).filter (fun sp => !(globalAppDirBundle.contains sp))) =
        sumMeasure resolve store
          ((l₁ ++ l₂).filter (fun sp => !(globalAppDirBundle.contains sp))) := by
  refine ⟨allAppDirSizesGo_spec resolve store globalAppDirBundle pages cache hc, ?_⟩
  intro x l₁ l₂ hx
  have hx' : x ∈ globalAppDirBundle := by simpa using hx
  simp [List.filter_append, List.filter_cons, hx']

theorem claimC1_witness :
    (allAppDirSizes (fun s => s) (fun _ => none) ["g.js"]
        [("/page", ["a.js", "g.js", "g.js"])] []).1 = [("/page", ⟨0, 0⟩)] := by
  rw [(claimC1 (fun s => s) (fun _ => none) ["g.js"] [("/page", ["a.js", "g.js", "g.js"])]
    [] (cacheCoherent_nil _)).1]
  decide

/-- C7: measuring a path whose file does not exist in the build output store
returns `{raw: 0, gzip: 0}`; the function is total, so no error is raised
and the run is not aborted. -/
theorem claimC7 (resolve : String → String) (store : String → Option (Nat × Nat))
    (cache : List (String × (Nat × Nat))) (scriptPath : String)
    (hc : cacheCoherent store cache) (habs : store (resolve scriptPath) = none) :
    (getScriptSize resolve store cache scriptPath).1 = (0, 0) := by
  rw [getScriptSize_fst resolve store cache scriptPath hc]
  simp [measureOf, habs]

theorem claimC7_witness :
    (getScriptSize (fun s => s) (fun _ => none) [] "missing.js").1 = (0, 0) :=
  claimC7 (fun s => s) (fun _ => none) [] "missing.js" (cacheCoherent_nil _) rfl

/-- C8: measurement is memoized by the resolved path: after any first call,
a second call with any script path that resolves to the same path returns
the identical tuple and leaves the cache unchanged, independently of the
store contents at the time of the second call — so the file is neither
re-read nor re-compressed, and each distinct resolved path is read and
compressed at most once per run. -/
theorem claimC8 (resolve : String → String) (store : String → Option (Nat × Nat))
    (cache : List (String × (Nat × Nat))) (scriptPath : String)
    (store' : String → Option (Nat × Nat)) (scriptPath' : String)
    (hsp : resolve scriptPath' = resolve scriptPath) :
    getScriptSize resolve store' (getScriptSize resolve store cache scriptPath).2
        scriptPath' =
      ((getScriptSize resolve store cache scriptPath).1,
       (getScriptSize resolve store cache scriptPath).2) := by
  cases h : lookupKey cache (resolve scriptPath) with
  | some v =>
    simp only [getScriptSize, h]
    simp [getScriptSize, hsp, h]
  | none =>
    simp only [getScriptSize, h]
    simp [getScriptSize, lookupKey, hsp]

theorem claimC8_witness :
    getScriptSize (fun s => s) (fun _ => none)
        (getScriptSize (fun s => s) (fun _ => some (5, 3)) [] "f.js").2 "f.js" =
      ((getScriptSize (fun s => s) (fun _ => some (5, 3)) [] "f.js").1,
       (getScriptSize (fun s => s) (fun _ => some (5, 3)) [] "f.js").2) :=
  claimC8 (fun s => s) (fun _ => some (5, 3)) [] "f.js" (fun _ => none) "f.js" rfl

/-- C9: route-source resolution returns the first existing candidate probing
the extensions in the exact fixed order tsx, ts, jsx, js, mdx at the
page-level path, and only if none of those five exist does it probe
`route.<ext>` under the path in the same order; if no candidate exists it
returns the absence marker: `resolveSourceFile` coincides with the
specification-side `resolveSpec` built from `List.find?` over that order. -/
theorem claimC9 (exist : String → Bool) (cwd : String) (sourceLike : String) :
    resolveSourceFile exist cwd sourceLike = resolveSpec exist cwd sourceLike := by
  unfold resolveSourceFile resolveSpec
  simp only [probeExts_eq_find]
  cases h : resolveExts.find?
      (fun ext => exist (cwd ++ "/" ++ (appRel sourceLike ++ "." ++ ext))) <;>
    simp [h]

/-- C2: the file pass of `logDiffs` is exhaustive and exclusive over every
file key of either snapshot: a key only in the current file map yields
exactly a `newFiles` entry, a key only in the previous file map yields
exactly a `removedFiles` entry, a key in both with a non-zero raw or gzip
delta yields exactly a `changedFiles` entry carrying the signed deltas, and
a key in both with both deltas zero appears in none of the three lists; in
particular, for `a.js` present only in the previous snapshot and `b.js`
present only in the current one, the result is `removedFiles = [a.js]`,
`newFiles = [b.js]`, `changedFiles = []`. -/
theorem claimC2 (prev : Option Doc) (curr : Doc) (k : String) :
    (∀ p, lookupKey (docFiles prev) k = some p →
      lookupKey (docFiles (some curr)) k = none →
      (⟨k, p⟩ : RemovedFile) ∈ (logDiffs prev curr).removedFiles ∧
      (∀ e ∈ (logDiffs prev curr).newFiles, e.file ≠ k) ∧
      (∀ e ∈ (logDiffs prev curr).changedFiles, e.file ≠ k)) ∧
    (∀ c, lookupKey (docFiles prev) k = none →
      lookupKey (docFiles (some curr)) k = some c →
      (⟨k, c⟩ : NewFile) ∈ (logDiffs prev curr).newFiles ∧
      (∀ e ∈ (logDiffs prev curr).removedFiles, e.file ≠ k) ∧
      (∀ e ∈ (logDiffs prev curr).changedFiles, e.file ≠ k)) ∧
    (∀ p c, lookupKey (docFiles prev) k = some p →
      lookupKey (docFiles (some curr)) k = some c →
      (((c.raw : Int) - (p.raw : Int) ≠ 0 ∨ (c.gzip : Int) - (p.gzip : Int) ≠ 0) →
        (⟨k, p, c, (c.raw : Int) - (p.raw : Int),
            (c.gzip : Int) - (p.gzip : Int)⟩ : ChangedFile)
            ∈ (logDiffs prev curr).changedFiles ∧
        (∀ e ∈ (logDiffs prev curr).newFiles, e.file ≠ k) ∧
        (∀ e ∈ (logDiffs prev curr).removedFiles, e.file ≠ k)) ∧
      ((c.raw : Int) - (p.raw : Int) = 0 → (c.gzip : Int) - (p.gzip : Int) = 0 →
        (∀ e ∈ (logDiffs prev curr).changedFiles, e.file ≠ k) ∧
        (∀ e ∈ (logDiffs prev curr).newFiles, e.file ≠ k) ∧
        (∀ e ∈ (logDiffs prev curr).removedFiles, e.file ≠ k))) ∧
    ((logDiffs (some ⟨none, none, some [("a.js", ⟨200, 80⟩)], none, none⟩)
        ⟨none, none, some [("b.js", ⟨300, 120⟩)], none, none⟩).removedFiles =
        [⟨"a.js", ⟨200, 80⟩⟩] ∧
      (logDiffs (some ⟨none, none, some [("a.js", ⟨200, 80⟩)], none, none⟩)
        ⟨none, none, some [("b.js", ⟨300, 120⟩)], none, none⟩).newFiles =
        [⟨"b.js", ⟨300, 120⟩⟩] ∧
      (logDiffs (some ⟨none, none, some [("a.js", ⟨200, 80⟩)], none, none⟩)
        ⟨none, none, some [("b.js", ⟨300, 120⟩)], none, none⟩).changedFiles = []) := by
  rw [logDiffs_newFiles, logDiffs_removedFiles, logDiffs_changedFiles]
  refine ⟨?_, ?_, ?_, by decide⟩
  · intro p hp hc
    exact ⟨removed_mem _ _ _ k p (mem_keys_left _ _ k p hp) hp hc,
      new_ne _ _ _ k (Or.inr hc),
      changed_ne_of_missing _ _ _ k (Or.inr hc)⟩
  · intro c hp hc
    exact ⟨new_mem _ _ _ k c (mem_keys_right _ _ k c hc) hp hc,
      removed_ne _ _ _ k (Or.inl hp),
      changed_ne_of_missing _ _ _ k (Or.inl hp)⟩
  · intro p c hp hc
    constructor
    · intro hne
      exact ⟨changed_mem _ _ _ k p c (mem_keys_left _ _ k p hp) hp hc hne,
        new_ne _ _ _ k (Or.inl ⟨p, hp⟩),
        removed_ne _ _ _ k (Or.inr ⟨c, hc⟩)⟩
    · intro h1 h2
      exact ⟨changed_ne_of_zero _ _ _ k p c hp hc h1 h2,
        new_ne _ _ _ k (Or.inl ⟨p, hp⟩),
        removed_ne _ _ _ k (Or.inr ⟨c, hc⟩)⟩

theorem claimC2_witness :
    (⟨"a.js", ⟨200, 80⟩⟩ : RemovedFile) ∈
      (logDiffs (some ⟨none, none, some [("a.js", ⟨200, 80⟩)], none, none⟩)
        ⟨none, none, some [("b.js", ⟨300, 120⟩)], none, none⟩).removedFiles :=
  ((claimC2 (some ⟨none, none, some [("a.js", ⟨200, 80⟩)], none, none⟩)
      ⟨none, none, some [("b.js", ⟨300, 120⟩)], none, none⟩ "a.js").1
    ⟨200, 80⟩ (by decide) (by decide)).1

/-- C3: when the previous snapshot is absent (null), `logDiffs` behaves
exactly as if the previous document had empty global/pages/files/routes:
the global delta baseline is `{raw: 0, gzip: 0}` so the reported delta is
the current global itself, the file pass sees an empty previous side
(nothing changed or removed, every current file new), and every current
route is reported as new; `logDiffs` is total, so no error is raised. -/
theorem claimC3 (curr : Doc) :
    logDiffs none curr = logDiffs (some emptyDoc) curr ∧
    (logDiffs none curr).deltaGlobalRaw = ((curr.__global.getD ⟨0, 0⟩).raw : Int) ∧
    (logDiffs none curr).deltaGlobalGzip = ((curr.__global.getD ⟨0, 0⟩).gzip : Int) ∧
    (logDiffs none curr).changedFiles = [] ∧
    (logDiffs none curr).removedFiles = [] ∧
    (logDiffs none curr).newFiles.map NewFile.file =
      jsSetList ((docFiles (some curr)).map Prod.fst) ∧
    (∀ e ∈ (logDiffs none curr).pageChanges, e.prev = ⟨0, 0⟩) ∧
    (logDiffs none curr).newRoutes = jsSetList ((docRoutes (some curr)).map Prod.fst) ∧
    (logDiffs none curr).removedRoutes = [] := by
  refine ⟨rfl, ?_, ?_, changedFiles_emptyPrev none curr rfl,
    removedFiles_emptyPrev none curr rfl, newFiles_emptyPrev none curr rfl,
    pageChanges_emptyPrev none curr rfl,
    (routes_emptyPrev none curr rfl).1, (routes_emptyPrev none curr rfl).2⟩
  · simp [logDiffs, docGlobal]
  · simp [logDiffs, docGlobal]

theorem claimC3_witness :
    ∀ e ∈ (logDiffs none ⟨some ⟨7, 3⟩, some [("/p", ⟨9, 4⟩)], none,
        some [("/r", ⟨"src", none⟩)], none⟩).pageChanges, e.prev = ⟨0, 0⟩ :=
  (claimC3 ⟨some ⟨7, 3⟩, some [("/p", ⟨9, 4⟩)], none,
    some [("/r", ⟨"src", none⟩)], none⟩).2.2.2.2.2.2.1

/-- C5: the page pass of `logDiffs` substitutes `{raw: 0, gzip: 0}` for the
absent side of every page key of either snapshot (no page is ever
classified as new or removed — `logDiffs` produces no such page lists),
computes signed raw and gzip deltas, and includes the page in the change
list exactly when at least one delta is non-zero; every emitted entry
carries the defaulted sides and their signed deltas. -/
theorem claimC5 (prev : Option Doc) (curr : Doc) (k : String) :
    ((k ∈ (docPages prev).map Prod.fst ∨ k ∈ (docPages (some curr)).map Prod.fst) →
      (((((lookupKey (docPages (some curr)) k).getD ⟨0, 0⟩).raw : Int) -
            (((lookupKey (docPages prev) k).getD ⟨0, 0⟩).raw : Int) ≠ 0 ∨
          ((((lookupKey (docPages (some curr)) k).getD ⟨0, 0⟩).gzip : Int) -
            (((lookupKey (docPages prev) k).getD ⟨0, 0⟩).gzip : Int) ≠ 0)) →
        (⟨k, (lookupKey (docPages prev) k).getD ⟨0, 0⟩,
          (lookupKey (docPages (some curr)) k).getD ⟨0, 0⟩,
          (((lookupKey (docPages (some curr)) k).getD ⟨0, 0⟩).raw : Int) -
            (((lookupKey (docPages prev) k).getD ⟨0, 0⟩).raw : Int),
          (((lookupKey (docPages (some curr)) k).getD ⟨0, 0⟩).gzip : Int) -
            (((lookupKey (docPages prev) k).getD ⟨0, 0⟩).gzip : Int)⟩ : PageChange)
          ∈ (logDiffs prev curr).pageChanges)) ∧
    ((((lookupKey (docPages (some curr)) k).getD ⟨0, 0⟩).raw : Int) -
        (((lookupKey (docPages prev) k).getD ⟨0, 0⟩).raw : Int) = 0 →
      (((lookupKey (docPages (some curr)) k).getD ⟨0, 0⟩).gzip : Int) -
        (((lookupKey (docPages prev) k).getD ⟨0, 0⟩).gzip : Int) = 0 →
      ∀ e ∈ (logDiffs prev curr).pageChanges, e.page ≠ k) ∧
    (∀ e ∈ (logDiffs prev curr).pageChanges,
      e.prev = (lookupKey (docPages prev) e.page).getD ⟨0, 0⟩ ∧
      e.curr = (lookupKey (docPages (some curr)) e.page).getD ⟨0, 0⟩ ∧
      e.deltaRaw = (e.curr.raw : Int) - (e.prev.raw : Int) ∧
      e.deltaGzip = (e.curr.gzip : Int) - (e.prev.gzip : Int) ∧
      (e.deltaRaw ≠ 0 ∨ e.deltaGzip ≠ 0)) := by
  rw [logDiffs_pageChanges]
  refine ⟨?_, ?_, ?_⟩
  · intro hk hne
    refine pageChange_mem _ _ _ k ?_ hne
    rw [mem_jsSetList]
    exact List.mem_append.2 hk
  · intro h1 h2
    exact pageChange_ne_of_zero _ _ _ k h1 h2
  · intro e he
    rcases List.mem_filterMap.1 he with ⟨k', _, hck⟩
    obtain ⟨hf, hp, hc, hdr, hdg, hne⟩ := pageChangeOf_inv _ _ k' e hck
    subst hf
    exact ⟨hp, hc, hdr, hdg, hne⟩

theorem claimC5_witness :
    (⟨"/p", ⟨0, 0⟩, ⟨9, 4⟩, (9 : Int), (4 : Int)⟩ : PageChange) ∈
      (logDiffs none ⟨none, some [("/p", ⟨9, 4⟩)], none, none, none⟩).pageChanges :=
  (claimC5 none ⟨none, some [("/p", ⟨9, 4⟩)], none, none, none⟩ "/p").1
    (by decide) (by decide)

/-- C4: the persisted compat document holds exactly the key `__global` plus
one top-level key per page and (as long as no page key collides with a
reserved name) no `__files`, `__pages` or `__routes` key; consequently a
later run whose previous input is any compat document sees an empty
previous file map (every current file classified as new, nothing changed or
removed), reads every previous page total as `{raw: 0, gzip: 0}`, and sees
an empty previous route set (every current route new), regardless of what
the prior run measured. -/
theorem claimC4 (g : SizeEntry) (pages : List (String × SizeEntry)) (curr : Doc)
    (hkeys : ∀ k ∈ pages.map Prod.fst,
      k ≠ "__global" ∧ k ≠ "__files" ∧ k ≠ "__pages" ∧ k ≠ "__routes") :
    ((compatJson g pages).keys = "__global" :: pages.map Prod.fst ∧
      "__files" ∉ (compatJson g pages).keys ∧
      "__pages" ∉ (compatJson g pages).keys ∧
      "__routes" ∉ (compatJson g pages).keys) ∧
    (logDiffs (some (compatJson g pages).toDoc) curr).changedFiles = [] ∧
    (logDiffs (some (compatJson g pages).toDoc) curr).removedFiles = [] ∧
    (logDiffs (some (compatJson g pages).toDoc) curr).newFiles.map NewFile.file =
      jsSetList ((docFiles (some curr)).map Prod.fst) ∧
    (∀ e ∈ (logDiffs (some (compatJson g pages).toDoc) curr).pageChanges,
      e.prev = ⟨0, 0⟩) ∧
    (logDiffs (some (compatJson g pages).toDoc) curr).newRoutes =
      jsSetList ((docRoutes (some curr)).map Prod.fst) ∧
    (logDiffs (some (compatJson g pages).toDoc) curr).removedRoutes = [] := by
  refine ⟨⟨rfl, ?_, ?_, ?_⟩,
    changedFiles_emptyPrev _ curr rfl, removedFiles_emptyPrev _ curr rfl,
    newFiles_emptyPrev _ curr rfl, pageChanges_emptyPrev _ curr rfl,
    (routes_emptyPrev (some (compatJson g pages).toDoc) curr rfl).1,
    (routes_emptyPrev (some (compatJson g pages).toDoc) curr rfl).2⟩
  · intro hmem
    rcases List.mem_cons.1 hmem with h | h
    · exact absurd h (by decide)
    · exact (hkeys _ h).2.1 rfl
  · intro hmem
    rcases List.mem_cons.1 hmem with h | h
    · exact absurd h (by decide)
    · exact (hkeys _ h).2.2.1 rfl
  · intro hmem
    rcases List.mem_cons.1 hmem with h | h
    · exact absurd h (by decide)
    · exact (hkeys _ h).2.2.2 rfl

theorem claimC4_witness :
    (compatJson ⟨10, 5⟩ [("/p", ⟨9, 4⟩)]).keys = ["__global", "/p"] :=
  ((claimC4 ⟨10, 5⟩ [("/p", ⟨9, 4⟩)] emptyDoc (by decide)).1).1

/-- The same claimed ordering read on the `changedFiles` entries that
`logDiffs` prints. -/
def specOrderedC6Log : List ChangedFile → Bool
  | [] => true
  | [_] => true
  | a :: b :: rest =>
    (decide (b.deltaGzip.natAbs < a.deltaGzip.natAbs ∨
      (a.deltaGzip.natAbs = b.deltaGzip.natAbs ∧
        (b.deltaRaw.natAbs < a.deltaRaw.natAbs ∨
          (a.deltaRaw.natAbs = b.deltaRaw.natAbs ∧ a.file.data ≤ b.file.data))))) &&
    specOrderedC6Log (b :: rest)

/-- C6 counterexample: the claimed ordering of the rendered changed-files
listing (descending gzip-delta magnitude, ties by descending raw-delta
magnitude, remaining ties by file key) fails on both renderings: the
comment script keeps two files with fully tied delta magnitudes in
key-iteration order (`b.js` before `a.js`), not file-key order, and the
`logDiffs` console listing is not sorted by magnitude at all (`a.js` with
gzip delta 1 precedes `b.js` with gzip delta 2). -/
theorem claimC6_counterexample :
    specOrderedC6 (sortChanged
      (commentPass [("b.js", ⟨2, 2⟩), ("a.js", ⟨2, 2⟩)]
        [("b.js", ⟨1, 1⟩), ("a.js", ⟨1, 1⟩)]).changed) = false ∧
    specOrderedC6Log
      (logDiffs (some ⟨none, none, some [("a.js", ⟨1, 1⟩), ("b.js", ⟨1, 1⟩)], none, none⟩)
        ⟨none, none, some [("a.js", ⟨2, 2⟩), ("b.js", ⟨3, 3⟩)], none, none⟩).changedFiles
      = false := by
  constructor <;> decide

/-- C6 as amended: the review-comment script's changed listing is a
permutation of the computed changed rows ordered by descending gzip-delta
magnitude with ties by descending raw-delta magnitude (full ties keep their
encounter order — the sort is stable — and are not reordered by file key),
while the `logDiffs` console changed listing is emitted unsorted, in
file-key union iteration order. -/
theorem claimC6 :
    (∀ l : List ChangedRow,
      (sortChanged l).Pairwise changedLe ∧ (sortChanged l).Perm l) ∧
    (∀ (prev : Option Doc) (curr : Doc),
      (logDiffs prev curr).changedFiles =
        (jsSetList ((docFiles prev).map Prod.fst ++
          (docFiles (some curr)).map Prod.fst)).filterMap
            (changedOf (docFiles prev) (docFiles (some curr)))) :=
  ⟨fun l => ⟨List.sorted_insertionSort changedLe l, List.perm_insertionSort changedLe l⟩,
   logDiffs_changedFiles⟩

/-- C10: the review-comment script prefers the primary analysis document
over the extended one on both sides; with a primary compat document as the
current side (it has no `__files` key) the per-file tables are computed
over an empty current file map, so nothing is changed or added and every
base file is removed; and with no current document at all the script exits
with status 0 without writing anything (result `none`). -/
theorem claimC10 (d : Doc) (currExtended basePrimary baseExtended : Option Doc) :
    scriptRun (some d) currExtended basePrimary baseExtended =
      scriptRun (some d) none basePrimary baseExtended ∧
    (∀ (g : SizeEntry) (pages : List (String × SizeEntry)),
      (CompatDoc.toDoc (compatJson g pages)).__files = none) ∧
    (d.__files = none →
      scriptRun (some d) currExtended basePrimary baseExtended =
        some (commentPass []
          (((basePrimary.orElse (fun _ => baseExtended)).bind
            (fun b => b.__files)).getD [])) ∧
      (commentPass [] (((basePrimary.orElse (fun _ => baseExtended)).bind
        (fun b => b.__files)).getD [])).changed = [] ∧
      (commentPass [] (((basePrimary.orElse (fun _ => baseExtended)).bind
        (fun b => b.__files)).getD [])).added = [] ∧
      (commentPass [] (((basePrimary.orElse (fun _ => baseExtended)).bind
        (fun b => b.__files)).getD [])).removed.map SizeRow.file =
        jsSetList (((((basePrimary.orElse (fun _ => baseExtended)).bind
          (fun b => b.__files)).getD []).map Prod.fst))) ∧
    scriptRun none none basePrimary baseExtended = none := by
  refine ⟨rfl, fun g pages => rfl, ?_, rfl⟩
  intro hf
  refine ⟨?_, (commentPassGo_emptyCurr _ _).1, (commentPassGo_emptyCurr _ _).2, ?_⟩
  · simp [scriptRun, hf]
  · exact commentRemoved_map_file _ _ (fun k hk => by
      simpa using (mem_jsSetList _ k).1 hk)

theorem claimC10_witness :
    scriptRun (some emptyDoc) none none
        (some ⟨none, none, some [("old.js", ⟨4, 2⟩)], none, none⟩) =
      some (commentPass [] [("old.js", ⟨4, 2⟩)]) :=
  ((claimC10 emptyDoc none none
      (some ⟨none, none, some [("old.js", ⟨4, 2⟩)], none, none⟩)).2.2.1 rfl).1

end BundleSize
